import Mathlib

/-!
Verification of the catalog scraper (`scraper.py`) of civilniy/shop-parser.

Strings are modelled as `List Char` (Python `str` is a sequence of code
points), with `String` wrappers where convenient.  Each definition in the
first part of this file is a direct translation of the corresponding
function of `scraper.py`; definitions whose name starts with `claim` or
`spec` instead follow the wording of the natural-language specification,
to be compared against the translated code.
-/

namespace Scraper

/-- Membership in the Python regex `\s` class, for the characters relevant
to this source: ASCII whitespace plus NEL and NBSP. -/
def pyIsSpace (c : Char) : Bool :=
  c == ' ' || c == '\t' || c == '\n' || c == '\r' || c == '\x0b' || c == '\x0c' ||
  c == '\x85' || c == '\xa0'

/-- Uppercase/lowercase letter pairs for ASCII Latin and Russian Cyrillic,
the alphabets appearing in this source; models Python `str.upper` /
`str.lower` on those characters (all other characters are unchanged). -/
def casePairs : List (Char × Char) :=
  [ ('A','a'), ('B','b'), ('C','c'), ('D','d'), ('E','e'), ('F','f'), ('G','g'),
    ('H','h'), ('I','i'), ('J','j'), ('K','k'), ('L','l'), ('M','m'), ('N','n'),
    ('O','o'), ('P','p'), ('Q','q'), ('R','r'), ('S','s'), ('T','t'), ('U','u'),
    ('V','v'), ('W','w'), ('X','x'), ('Y','y'), ('Z','z'),
    ('А','а'), ('Б','б'), ('В','в'), ('Г','г'), ('Д','д'), ('Е','е'), ('Ж','ж'),
    ('З','з'), ('И','и'), ('Й','й'), ('К','к'), ('Л','л'), ('М','м'), ('Н','н'),
    ('О','о'), ('П','п'), ('Р','р'), ('С','с'), ('Т','т'), ('У','у'), ('Ф','ф'),
    ('Х','х'), ('Ц','ц'), ('Ч','ч'), ('Ш','ш'), ('Щ','щ'), ('Ъ','ъ'), ('Ы','ы'),
    ('Ь','ь'), ('Э','э'), ('Ю','ю'), ('Я','я'), ('Ё','ё') ]

/-- Python `str.lower` on one character. -/
def lowerCh (c : Char) : Char :=
  match casePairs.find? (fun p => p.1 == c) with
  | some p => p.2
  | none => c

/-- Python `str.upper` on one character. -/
def upperCh (c : Char) : Char :=
  match casePairs.find? (fun p => p.2 == c) with
  | some p => p.1
  | none => c

/-- Python `str.lower`. -/
def lowerL (l : List Char) : List Char := l.map lowerCh

/-- Python `str.upper`. -/
def upperL (l : List Char) : List Char := l.map upperCh

/-- One pass of `re.sub(r"\s+", " ", s)`: each maximal whitespace run
becomes a single space.  The flag records whether the previous character
was part of a whitespace run. -/
def collapseWS : Bool → List Char → List Char
  | _, [] => []
  | prevSpace, c :: cs =>
    if pyIsSpace c then
      if prevSpace then collapseWS true cs else ' ' :: collapseWS true cs
    else c :: collapseWS false cs

/-- Python `str.strip` (on both ends, whitespace). -/
def stripSp (l : List Char) : List Char :=
  ((l.dropWhile pyIsSpace).reverse.dropWhile pyIsSpace).reverse

/-- `clean_text` of scraper.py on char lists:
`re.sub(r"\s+", " ", s).strip()`. -/
def cleanTextL (l : List Char) : List Char := stripSp (collapseWS false l)

/-- `clean_text` of scraper.py. -/
def clean_text (s : String) : String := ⟨cleanTextL s.data⟩

/-- Whether `pat` is a prefix of `s` (substring search helper). -/
def startsWithL : List Char → List Char → Bool
  | [], _ => true
  | _ :: _, [] => false
  | p :: ps, c :: cs => p == c && startsWithL ps cs

/-- Python substring containment `pat in s`. -/
def containsL (pat : List Char) : List Char → Bool
  | [] => pat.isEmpty
  | c :: cs => startsWithL pat (c :: cs) || containsL pat cs

theorem mem_of_mem_dropWhile {α : Type} (p : α → Bool) :
    ∀ (l : List α) (x : α), x ∈ l.dropWhile p → x ∈ l := by
  intro l
  induction l with
  | nil => intro x hx; simp [List.dropWhile] at hx
  | cons a as ih =>
    intro x hx
    simp only [List.dropWhile] at hx
    split at hx
    · exact List.mem_cons_of_mem _ (ih x hx)
    · exact hx

theorem mem_collapseWS :
    ∀ (l : List Char) (b : Bool) (c : Char),
      c ∈ collapseWS b l → pyIsSpace c = true → c = ' ' := by
  intro l
  induction l with
  | nil => intro b c hc; simp [collapseWS] at hc
  | cons a as ih =>
    intro b c hc hs
    simp only [collapseWS] at hc
    split at hc
    · split at hc
      · exact ih _ _ hc hs
      · rcases List.mem_cons.mp hc with h | h
        · exact h
        · exact ih _ _ h hs
    · rcases List.mem_cons.mp hc with h | h
      · subst h; simp_all
      · exact ih _ _ h hs

theorem mem_cleanTextL_space (l : List Char) (c : Char)
    (hc : c ∈ cleanTextL l) (hs : pyIsSpace c = true) : c = ' ' := by
  unfold cleanTextL stripSp at hc
  rw [List.mem_reverse] at hc
  have hc2 := mem_of_mem_dropWhile _ _ _ hc
  rw [List.mem_reverse] at hc2
  have hc3 := mem_of_mem_dropWhile _ _ _ hc2
  exact mem_collapseWS _ _ _ hc3 hs

theorem casePairs_fst_not_snd :
    ∀ q ∈ casePairs, ∀ x ∈ casePairs, (x.2 == q.1) = false := by decide

theorem upperCh_idem (c : Char) : upperCh (upperCh c) = upperCh c := by
  cases h : casePairs.find? (fun p => p.2 == c) with
  | none =>
    have h1 : upperCh c = c := by unfold upperCh; rw [h]
    rw [h1, h1]
  | some q =>
    have hq : q ∈ casePairs := List.mem_of_find?_eq_some h
    have hnone : casePairs.find? (fun p => p.2 == q.1) = none := by
      rw [List.find?_eq_none]
      intro x hx
      simp [casePairs_fst_not_snd q hq x hx]
    have h1 : upperCh c = q.1 := by unfold upperCh; rw [h]
    have h2 : upperCh q.1 = q.1 := by unfold upperCh; rw [hnone]
    rw [h1, h2]

theorem upperCh_space : upperCh ' ' = ' ' := by decide

/-- Case-insensitive character comparison, as `re.IGNORECASE` folds the
(ASCII) literal characters of the pattern against the input. -/
def chEqCI (p c : Char) : Bool := lowerCh p == lowerCh c

/-- Anchored case-insensitive match of a whole literal alternative of the
regex against the whole input. -/
def strCI : List Char → List Char → Bool
  | [], [] => true
  | _ :: _, [] => false
  | [], _ :: _ => false
  | p :: ps, c :: cs => chEqCI p c && strCI ps cs

/-- Consume a literal pattern case-insensitively from the front of the
input, returning the rest. -/
def stripCI : List Char → List Char → Option (List Char)
  | [], s => some s
  | _ :: _, [] => none
  | p :: ps, c :: cs => if chEqCI p c then stripCI ps cs else none

/-- The numeric branch `\d+([.,]\d+)?` of SIZE_RE, matched against the
whole input. -/
def numFull (s : List Char) : Bool :=
  let ds := s.takeWhile Char.isDigit
  let rest := s.dropWhile Char.isDigit
  !ds.isEmpty &&
    (match rest with
     | [] => true
     | c :: cs => (c == '.' || c == ',') && !cs.isEmpty && cs.all Char.isDigit)

/-- The literal alternatives of SIZE_RE, in the order they appear in the
pattern. -/
def sizeTokens : List String :=
  ["XS", "S", "M", "L", "XL", "XXL", "XXXL", "XXXS", "ONE SIZE", "OS", "O/S"]

/-- The `US\s?\d+([.,]\d+)?` / `EU\s?\d+([.,]\d+)?` alternatives of
SIZE_RE (region prefix, optional whitespace character, number). -/
def regionNum (pre : List Char) (s : List Char) : Bool :=
  match stripCI pre s with
  | none => false
  | some rest =>
    numFull rest ||
      (match rest with
       | c :: cs => pyIsSpace c && numFull cs
       | [] => false)

/-- `SIZE_RE.match(t)` of scraper.py: the anchored, case-insensitive
alternation of the literal tokens, the region-prefixed numbers, and the
bare numbers (under full `^...$` anchoring the alternation order is
irrelevant, so the union of the alternatives is the exact language). -/
def SIZE_RE_match (s : List Char) : Bool :=
  sizeTokens.any (fun tok => strCI tok.data s) ||
  regionNum "US".data s || regionNum "EU".data s || numFull s

/-- Modelled from the spec wording of the size grammar: region prefix
"US"/"EU", optionally followed by a space, then a number with optional
decimal part. -/
def specRegion (pre : List Char) (s : List Char) : Bool :=
  match stripCI pre s with
  | none => false
  | some rest =>
    numFull rest ||
      (match rest with
       | c :: cs => c == ' ' && numFull cs
       | [] => false)

/-- Modelled from the spec wording: the size grammar accepts exactly a
literal letter token from the fixed set (case-insensitively), or a
"US"/"EU"-prefixed number, or a bare number with optional decimal part. -/
def sizeGrammarSpec (s : List Char) : Bool :=
  sizeTokens.any (fun tok => decide (lowerL tok.data = lowerL s)) ||
  specRegion "US".data s || specRegion "EU".data s || numFull s

theorem charBeq_decide (a b : Char) : (a == b) = decide (a = b) := by
  by_cases h : a = b <;> simp [h]

theorem decide_and_eq (p q : Prop) [Decidable p] [Decidable q] :
    decide (p ∧ q) = (decide p && decide q) := by
  by_cases hp : p <;> by_cases hq : q <;> simp [hp, hq]

theorem strCI_eq (a : List Char) :
    ∀ b, strCI a b = decide (lowerL a = lowerL b) := by
  induction a with
  | nil => intro b; cases b <;> simp [strCI, lowerL]
  | cons p ps ih =>
    intro b
    cases b with
    | nil => simp [strCI, lowerL]
    | cons c cs =>
      simp only [strCI, chEqCI, lowerL, List.map_cons, List.cons.injEq,
        decide_and_eq, ih, charBeq_decide]

theorem stripCI_mem (pre : List Char) :
    ∀ (s r : List Char), stripCI pre s = some r → ∀ c ∈ r, c ∈ s := by
  induction pre with
  | nil =>
    intro s r h c hc
    simp only [stripCI, Option.some.injEq] at h
    subst h; exact hc
  | cons p ps ih =>
    intro s r h c hc
    cases s with
    | nil => simp [stripCI] at h
    | cons a as =>
      simp only [stripCI] at h
      split at h
      · exact List.mem_cons_of_mem _ (ih as r h c hc)
      · exact absurd h (by simp)

theorem regionNum_eq_specRegion (pre t : List Char)
    (h : ∀ c ∈ t, pyIsSpace c = true → c = ' ') :
    regionNum pre t = specRegion pre t := by
  unfold regionNum specRegion
  cases hs : stripCI pre t with
  | none => rfl
  | some rest =>
    cases rest with
    | nil => rfl
    | cons c cs =>
      have hc : c ∈ t := stripCI_mem pre t _ hs c (List.mem_cons_self c cs)
      cases hsp : pyIsSpace c with
      | true =>
        have hcsp : c = ' ' := h c hc hsp
        subst hcsp; simp [pyIsSpace]
      | false =>
        have hne : ¬ (c = ' ') := by
          intro hcc; subst hcc; simp [pyIsSpace] at hsp
        simp [hsp, charBeq_decide, hne]

theorem SIZE_RE_match_spec_on_clean (s : List Char) :
    SIZE_RE_match (cleanTextL s) = sizeGrammarSpec (cleanTextL s) := by
  unfold SIZE_RE_match sizeGrammarSpec
  have hreg : ∀ pre, regionNum pre (cleanTextL s) = specRegion pre (cleanTextL s) := by
    intro pre
    exact regionNum_eq_specRegion pre _ (fun c hc hs => mem_cleanTextL_space s c hc hs)
  have htok : (sizeTokens.any (fun tok => strCI tok.data (cleanTextL s))) =
      (sizeTokens.any (fun tok => decide (lowerL tok.data = lowerL (cleanTextL s)))) := by
    simp only [strCI_eq]
  rw [htok, hreg, hreg]

/-- The blocklist of `looks_like_color`, in source order. -/
def badTerms : List String :=
  ["₽", "руб", "в сплит", "добавить", "корзин", "купить",
   "нет в наличии", "в наличии", "предзаказ", "sale", "скидк",
   "размер", "цвет"]

/-- The character class `[A-Za-zА-Яа-я]` of the alphabetic check in
`looks_like_color`. -/
def isAlphaLatCyr (c : Char) : Bool :=
  ('A' ≤ c && c ≤ 'Z') || ('a' ≤ c && c ≤ 'z') ||
  ('А' ≤ c && c ≤ 'Я') || ('а' ≤ c && c ≤ 'я')

/-- `looks_like_color` of scraper.py. -/
def looks_like_color (text : List Char) : Bool :=
  let t := cleanTextL text
  if t.isEmpty then false
  else if badTerms.any (fun b => containsL b.data (lowerL t)) then false
  else if decide (2 ≤ t.length) && decide (t.length ≤ 40) && t.any isAlphaLatCyr then true
  else false

/-- Modelled from the spec: a fragment passes the color-plausibility test
iff it is non-empty after whitespace normalization, contains none of the
blocklisted terms (checked on the lowercased text), has length between 2
and 40 characters, and contains at least one Latin or Cyrillic letter. -/
def claimColorPass (text : List Char) : Bool :=
  let t := cleanTextL text
  !t.isEmpty && !(badTerms.any (fun b => containsL b.data (lowerL t))) &&
    (decide (2 ≤ t.length) && decide (t.length ≤ 40)) && t.any isAlphaLatCyr

/-- `parse_stock_from_text` of scraper.py (its argument is the already
lowercased visible page text). -/
def parse_stock_from_text (pageTextLower : List Char) : List Char :=
  if containsL "нет в наличии".data pageTextLower || containsL "sold out".data pageTextLower then
    "нет в наличии".data
  else if containsL "в наличии".data pageTextLower || containsL "in stock".data pageTextLower then
    "в наличии".data
  else []

/-- The STOCK step of `parse_product_page`: clean the visible page text,
lowercase it, and run `parse_stock_from_text`. -/
def stockOfPage (pageText : String) : List Char :=
  parse_stock_from_text (lowerL (cleanTextL pageText.data))

/-- Python `.replace("  ", " ")`: replace every occurrence of a double
space by a single space, scanning left to right without overlap. -/
def replaceDS : List Char → List Char
  | [] => []
  | [c] => [c]
  | c :: d :: cs =>
    if c = ' ' ∧ d = ' ' then ' ' :: replaceDS cs
    else c :: replaceDS (d :: cs)

/-- The size-token normalization of `parse_product_page`:
`t.upper().replace("  ", " ")`. -/
def sizeNorm (t : String) : String := ⟨replaceDS (upperL t.data)⟩

/-- Order-preserving deduplication against a seen set (the
`dict.fromkeys` / seen-set pattern of the source). -/
def dedupAux {α : Type} [DecidableEq α] (seen : List α) : List α → List α
  | [] => []
  | u :: us => if u ∈ seen then dedupAux seen us else u :: dedupAux (u :: seen) us

/-- First-seen-order deduplication. -/
def dedupFirst {α : Type} [DecidableEq α] (l : List α) : List α := dedupAux [] l

/-- The SIZES section of `parse_product_page`: texts of `<option>`
elements matching SIZE_RE, then texts of clickable/label elements
matching SIZE_RE with length at most 10, each normalized, concatenated,
and deduplicated preserving first-seen order. -/
def collectSizes (optionTexts elementTexts : List String) : List String :=
  dedupFirst
    (optionTexts.filterMap (fun t0 =>
      if SIZE_RE_match (clean_text t0).data then some (sizeNorm (clean_text t0))
      else none) ++
     elementTexts.filterMap (fun t0 =>
      if clean_text t0 = "" then none
      else if SIZE_RE_match (clean_text t0).data ∧ (clean_text t0).data.length ≤ 10 then
        some (sizeNorm (clean_text t0))
      else none))

/-- `catalog_page_url` of scraper.py. -/
def catalog_page_url (catalog_url : String) (page : Nat) : String :=
  if page = 1 then catalog_url
  else
    catalog_url ++ (if containsL "?".data catalog_url.data then "&" else "?") ++
      "page=" ++ toString page

/-- `extract_product_links_from_catalog` of scraper.py, parametrized by
the URL-join function (the external library call `urllib.parse.urljoin`):
anchors whose href contains "/product/" and is non-empty are resolved
against the base URL, kept only if the resolved URL still contains
"/product/", then deduplicated preserving first-seen order. -/
def extract_product_links_from_catalog (join : String → String → String)
    (hrefs : List String) (base_url : String) : List String :=
  let urls := hrefs.filterMap (fun href =>
    if ¬ containsL "/product/".data href.data then none
    else if href = "" then none
    else
      let full := join base_url href
      if containsL "/product/".data full.data then some full else none)
  dedupFirst urls

/-- A normalized product record as assembled by `parse_product_page`. -/
structure ProductRecord where
  url : String
  name : String
  category : String
  color : String
  sizes : List String
  stock : String
  deriving DecidableEq

/-- One flat output row of `main`. -/
structure OutputRow where
  url : String
  name : String
  category : String
  color : String
  size : String
  stock : String
  deriving DecidableEq

/-- A row of `main`, copying all fields of the record and one size. -/
def rowOfSize (r : ProductRecord) (sz : String) : OutputRow :=
  ⟨r.url, r.name, r.category, r.color, sz, r.stock⟩

/-- The row flattening in `main`: one row per size if the record has
sizes, else a single row with an empty size field. -/
def flatten (r : ProductRecord) : List OutputRow :=
  if r.sizes.isEmpty then [rowOfSize r ""] else r.sizes.map (rowOfSize r)

/-- The environment one catalog walk runs against: for each page index
the Link Collector output on that page (`none` = the catalog page fetch
raised), and for each product URL the assembled record (`none` =
`parse_product_page` raised on that product). -/
structure CatalogEnv where
  page : Nat → Option (List String)
  prod : String → Option ProductRecord

/-- Observable crawl events: catalog page fetches, product fetches, and
the two politeness sleeps. -/
inductive Ev where
  | pageFetch : Nat → Ev
  | prodFetch : String → Ev
  | sleepProd : Ev
  | sleepPage : Ev
  deriving DecidableEq

/-- Events of the per-product loop of `main` over the links of one page: each
product is fetched and then, unconditionally, the per-request sleep
runs. -/
def pageEvs : List String → List Ev
  | [] => []
  | u :: us => Ev.prodFetch u :: Ev.sleepProd :: pageEvs us

/-- Rows produced by the per-product loop of `main` over the links of one
page: a failing product contributes no rows, the loop continues. -/
def pageRows (env : CatalogEnv) : List String → List OutputRow
  | [] => []
  | u :: us =>
    (match env.prod u with
     | none => []
     | some r => flatten r) ++ pageRows env us

def MAX_PAGES_PER_CATALOG : Nat := 200

/-- The per-catalog page loop of `main`, from page index `page` with
`fuel` remaining loop iterations of `range(1, MAX_PAGES_PER_CATALOG+1)`:
fetch the page (on failure, break — no further events), collect links (if
empty, break), else process every product, sleep the per-page delay, and
continue with the next page. -/
def walkFrom (env : CatalogEnv) : Nat → Nat → List Ev × List OutputRow
  | _, 0 => ([], [])
  | page, fuel + 1 =>
    match env.page page with
    | none => ([Ev.pageFetch page], [])
    | some links =>
      if links.isEmpty then ([Ev.pageFetch page], [])
      else
        (Ev.pageFetch page ::
          (pageEvs links ++ [Ev.sleepPage] ++ (walkFrom env (page + 1) fuel).1),
         pageRows env links ++ (walkFrom env (page + 1) fuel).2)

/-- One catalog walk of `main`: pages 1 to MAX_PAGES_PER_CATALOG. -/
def walk (env : CatalogEnv) : List Ev × List OutputRow :=
  walkFrom env 1 MAX_PAGES_PER_CATALOG

/-- The outer loop of `main` over catalog roots, accumulating rows in
discovery order. -/
def crawl (envOf : String → CatalogEnv) : List String → List OutputRow
  | [] => []
  | r :: rs => (walk (envOf r)).2 ++ crawl envOf rs

/-- Count the events satisfying a predicate. -/
def countEv (p : Ev → Bool) (l : List Ev) : Nat := (l.filter p).length

def isPageFetchB : Ev → Bool
  | Ev.pageFetch _ => true
  | _ => false

def isProdFetchB : Ev → Bool
  | Ev.prodFetch _ => true
  | _ => false

def isSleepProdB : Ev → Bool
  | Ev.sleepProd => true
  | _ => false

def isSleepPageB : Ev → Bool
  | Ev.sleepPage => true
  | _ => false

/-- Whether an event is the fetch of a page on which the Link Collector
succeeded and returned at least one link. -/
def isSuccPageB (env : CatalogEnv) : Ev → Bool
  | Ev.pageFetch n =>
    match env.page n with
    | some (_ :: _) => true
    | _ => false
  | _ => false

theorem dedupAux_spec {α : Type} [DecidableEq α] :
    ∀ (l seen : List α), (∀ x ∈ dedupAux seen l, x ∉ seen) ∧ (dedupAux seen l).Nodup := by
  intro l
  induction l with
  | nil => intro seen; simp [dedupAux]
  | cons u us ih =>
    intro seen
    by_cases hu : u ∈ seen
    · simpa [dedupAux, hu] using ih seen
    · constructor
      · intro x hx
        simp only [dedupAux, if_neg hu] at hx
        rcases List.mem_cons.mp hx with rfl | hx
        · exact hu
        · intro hxs
          exact (ih (u :: seen)).1 x hx (List.mem_cons_of_mem _ hxs)
      · simp only [dedupAux, if_neg hu]
        refine List.nodup_cons.mpr ⟨?_, (ih (u :: seen)).2⟩
        intro hmem
        exact (ih (u :: seen)).1 u hmem (List.mem_cons_self _ _)

theorem dedupFirst_nodup {α : Type} [DecidableEq α] (l : List α) :
    (dedupFirst l).Nodup :=
  (dedupAux_spec l []).2

theorem mem_dedupAux {α : Type} [DecidableEq α] :
    ∀ (l seen : List α) (x : α), x ∈ dedupAux seen l → x ∈ l := by
  intro l
  induction l with
  | nil => intro seen x hx; simp [dedupAux] at hx
  | cons u us ih =>
    intro seen x hx
    by_cases hu : u ∈ seen
    · simp only [dedupAux, if_pos hu] at hx
      exact List.mem_cons_of_mem _ (ih seen x hx)
    · simp only [dedupAux, if_neg hu] at hx
      rcases List.mem_cons.mp hx with rfl | hx
      · exact List.mem_cons_self _ _
      · exact List.mem_cons_of_mem _ (ih (u :: seen) x hx)

theorem countEv_append (p : Ev → Bool) (l1 l2 : List Ev) :
    countEv p (l1 ++ l2) = countEv p l1 + countEv p l2 := by
  simp [countEv, List.filter_append]

theorem countEv_cons (p : Ev → Bool) (a : Ev) (l : List Ev) :
    countEv p (a :: l) = (if p a then 1 else 0) + countEv p l := by
  simp only [countEv, List.filter_cons]
  split <;> simp [Nat.add_comm]

theorem countEv_pageEvs_zero (p : Ev → Bool)
    (hp : ∀ u, p (Ev.prodFetch u) = false) (hs : p Ev.sleepProd = false) :
    ∀ L, countEv p (pageEvs L) = 0 := by
  intro L
  induction L with
  | nil => rfl
  | cons u us ih => simp [pageEvs, countEv, List.filter_cons, hp, hs] at ih ⊢; exact ih

theorem pageEvs_count_sleepProd :
    ∀ L, countEv isSleepProdB (pageEvs L) = L.length := by
  intro L
  induction L with
  | nil => rfl
  | cons u us ih =>
    simp [pageEvs, countEv, List.filter_cons, isSleepProdB, isProdFetchB] at ih ⊢
    exact ih

theorem pageEvs_count_prodFetch :
    ∀ L, countEv isProdFetchB (pageEvs L) = L.length := by
  intro L
  induction L with
  | nil => rfl
  | cons u us ih =>
    simp [pageEvs, countEv, List.filter_cons, isSleepProdB, isProdFetchB] at ih ⊢
    exact ih

theorem pageEvs_count_one_prodFetch (u : String) :
    ∀ L, countEv (fun e => decide (e = Ev.prodFetch u)) (pageEvs L) = L.count u := by
  intro L
  induction L with
  | nil => rfl
  | cons v vs ih =>
    by_cases hv : v = u
    · subst hv
      simp [pageEvs, countEv, List.filter_cons, List.count_cons] at ih ⊢
      omega
    · have hne : ¬ (Ev.prodFetch v = Ev.prodFetch u) := by
        intro hcontra; exact hv (Ev.prodFetch.inj hcontra)
      simp [pageEvs, countEv, List.filter_cons, List.count_cons, hne, hv] at ih ⊢
      exact ih

theorem prodFetch_mem_pageEvs (u : String) :
    ∀ L, (Ev.prodFetch u ∈ pageEvs L) ↔ u ∈ L := by
  intro L
  induction L with
  | nil => simp [pageEvs]
  | cons v vs ih => simp [pageEvs, ih]

theorem mem_pageEvs_shape :
    ∀ L e, e ∈ pageEvs L → (∃ u, e = Ev.prodFetch u) ∨ e = Ev.sleepProd := by
  intro L
  induction L with
  | nil => intro e he; simp [pageEvs] at he
  | cons v vs ih =>
    intro e he
    rcases List.mem_cons.mp he with rfl | he
    · exact Or.inl ⟨v, rfl⟩
    · rcases List.mem_cons.mp he with rfl | he
      · exact Or.inr rfl
      · exact ih e he

theorem walkFrom_count_pageFetch_le (env : CatalogEnv) :
    ∀ (fuel page : Nat), countEv isPageFetchB (walkFrom env page fuel).1 ≤ fuel := by
  intro fuel
  induction fuel with
  | zero => intro page; simp [walkFrom, countEv]
  | succ f ih =>
    intro page
    cases hp : env.page page with
    | none => simp [walkFrom, hp, countEv, List.filter_cons, isPageFetchB]
    | some links =>
      cases links with
      | nil => simp [walkFrom, hp, countEv, List.filter_cons, isPageFetchB]
      | cons l ls =>
        simp only [walkFrom, hp, List.isEmpty_cons, Bool.false_eq_true, if_false]
        rw [countEv_cons, countEv_append, countEv_append,
          countEv_pageEvs_zero isPageFetchB (fun u => rfl) rfl (l :: ls)]
        have h2 := ih (page + 1)
        have h3 : countEv isPageFetchB [Ev.sleepPage] = 0 := rfl
        rw [h3]
        simp only [isPageFetchB, if_true]
        omega

theorem walkFrom_sleepProd_eq_prodFetch (env : CatalogEnv) :
    ∀ (fuel page : Nat),
      countEv isSleepProdB (walkFrom env page fuel).1 =
      countEv isProdFetchB (walkFrom env page fuel).1 := by
  intro fuel
  induction fuel with
  | zero => intro page; simp [walkFrom, countEv]
  | succ f ih =>
    intro page
    cases hp : env.page page with
    | none => simp [walkFrom, hp, countEv, List.filter_cons, isSleepProdB, isProdFetchB]
    | some links =>
      cases links with
      | nil => simp [walkFrom, hp, countEv, List.filter_cons, isSleepProdB, isProdFetchB]
      | cons l ls =>
        simp only [walkFrom, hp, List.isEmpty_cons, Bool.false_eq_true, if_false,
          List.cons_append]
        have h1 := pageEvs_count_sleepProd (l :: ls)
        have h2 := pageEvs_count_prodFetch (l :: ls)
        have h3 := ih (page + 1)
        simp [countEv, List.filter_cons, List.filter_append, isSleepProdB, isProdFetchB] at h1 h2 h3 ⊢
        omega

theorem walkFrom_sleepPage_eq_succPages (env : CatalogEnv) :
    ∀ (fuel page : Nat),
      countEv isSleepPageB (walkFrom env page fuel).1 =
      countEv (isSuccPageB env) (walkFrom env page fuel).1 := by
  intro fuel
  induction fuel with
  | zero => intro page; simp [walkFrom, countEv]
  | succ f ih =>
    intro page
    cases hp : env.page page with
    | none =>
      simp [walkFrom, hp, countEv, List.filter_cons, isSleepPageB, isSuccPageB]
    | some links =>
      cases links with
      | nil =>
        simp [walkFrom, hp, countEv, List.filter_cons, isSleepPageB, isSuccPageB]
      | cons l ls =>
        simp only [walkFrom, hp, List.isEmpty_cons, Bool.false_eq_true, if_false]
        rw [countEv_cons, countEv_cons, countEv_append, countEv_append,
          countEv_append, countEv_append,
          countEv_pageEvs_zero isSleepPageB (fun u => rfl) rfl (l :: ls),
          countEv_pageEvs_zero (isSuccPageB env) (fun u => rfl) rfl (l :: ls)]
        have h3 := ih (page + 1)
        have h4 : countEv isSleepPageB [Ev.sleepPage] = 1 := rfl
        have h5 : countEv (isSuccPageB env) [Ev.sleepPage] = 0 := rfl
        have h6 : isSuccPageB env (Ev.pageFetch page) = true := by
          simp [isSuccPageB, hp]
        have h7 : isSleepPageB (Ev.pageFetch page) = false := rfl
        rw [h4, h5, h6, h7]
        simp only [if_true, if_false, Bool.false_eq_true]
        omega

theorem walkFrom_events_indep_prod (pfun : Nat → Option (List String))
    (prod1 prod2 : String → Option ProductRecord) :
    ∀ (fuel page : Nat),
      (walkFrom ⟨pfun, prod1⟩ page fuel).1 = (walkFrom ⟨pfun, prod2⟩ page fuel).1 := by
  intro fuel
  induction fuel with
  | zero => intro page; simp [walkFrom]
  | succ f ih =>
    intro page
    cases hp : pfun page with
    | none => simp [walkFrom, hp]
    | some links =>
      cases links with
      | nil => simp [walkFrom, hp]
      | cons l ls => simp [walkFrom, hp, ih (page + 1)]

theorem walkFrom_succ_none (env : CatalogEnv) (page f : Nat)
    (h : env.page page = none) :
    walkFrom env page (f + 1) = ([Ev.pageFetch page], []) := by
  simp [walkFrom, h]

theorem walkFrom_succ_empty (env : CatalogEnv) (page f : Nat)
    (h : env.page page = some []) :
    walkFrom env page (f + 1) = ([Ev.pageFetch page], []) := by
  simp [walkFrom, h]

theorem walkFrom_succ_links (env : CatalogEnv) (page f : Nat) (l : String)
    (ls : List String) (h : env.page page = some (l :: ls)) :
    walkFrom env page (f + 1) =
      (Ev.pageFetch page ::
        (pageEvs (l :: ls) ++ [Ev.sleepPage] ++ (walkFrom env (page + 1) f).1),
       pageRows env (l :: ls) ++ (walkFrom env (page + 1) f).2) := by
  simp [walkFrom, h]

theorem mem_replaceDS :
    ∀ (l : List Char), ∀ c ∈ replaceDS l, c = ' ' ∨ c ∈ l := by
  intro l
  match l with
  | [] => intro c hc; simp [replaceDS] at hc
  | [a] =>
    intro c hc
    simp only [replaceDS, List.mem_singleton] at hc
    exact Or.inr (by simp [hc])
  | a :: b :: cs =>
    intro c hc
    simp only [replaceDS] at hc
    split at hc
    · rcases List.mem_cons.mp hc with rfl | hc
      · exact Or.inl rfl
      · rcases mem_replaceDS cs c hc with h | h
        · exact Or.inl h
        · exact Or.inr (List.mem_cons_of_mem _ (List.mem_cons_of_mem _ h))
    · rcases List.mem_cons.mp hc with rfl | hc
      · exact Or.inr (List.mem_cons_self _ _)
      · rcases mem_replaceDS (b :: cs) c hc with h | h
        · exact Or.inl h
        · exact Or.inr (List.mem_cons_of_mem _ h)

theorem upperL_map_id (l : List Char) (h : ∀ c ∈ l, upperCh c = c) :
    upperL l = l := by
  unfold upperL
  induction l with
  | nil => rfl
  | cons a as ih =>
    simp only [List.map_cons, h a (List.mem_cons_self _ _),
      ih (fun c hc => h c (List.mem_cons_of_mem _ hc))]

theorem upperL_replaceDS_upperL (v : List Char) :
    upperL (replaceDS (upperL v)) = replaceDS (upperL v) := by
  apply upperL_map_id
  intro c hc
  rcases mem_replaceDS _ c hc with rfl | hcv
  · exact upperCh_space
  · rcases List.mem_map.mp hcv with ⟨a, _, rfl⟩
    exact upperCh_idem a

theorem size_comp_rowOfSize (r : ProductRecord) (l : List String) :
    l.map (OutputRow.size ∘ rowOfSize r) = l := by
  induction l with
  | nil => rfl
  | cons a as ih =>
    rw [List.map_cons, ih]
    rfl

/-- Claim C5: pagination URL construction — page 1 uses the catalog root
URL unmodified; every page N > 1 appends "page=N" to the root, with "&"
when the root already contains a "?" and "?" otherwise; in particular the
two example URLs of the spec come out as stated. -/
theorem c5_catalog_page_url :
    (∀ url : String, catalog_page_url url 1 = url) ∧
    (∀ (url : String) (n : Nat), 2 ≤ n →
      catalog_page_url url n =
        url ++ (if containsL "?".data url.data then "&" else "?") ++
          "page=" ++ toString n) ∧
    catalog_page_url "https://x.com/cat" 3 = "https://x.com/cat?page=3" ∧
    catalog_page_url "https://x.com/cat?x=1" 2 = "https://x.com/cat?x=1&page=2" := by
  refine ⟨fun url => rfl, fun url n hn => ?_, by decide, by decide⟩
  have hne : ¬ (n = 1) := by omega
  simp [catalog_page_url, hne]

/-- Witness for the page N > 1 clause of C5 at a concrete input. -/
theorem c5_catalog_page_url_witness :
    2 ≤ 3 ∧ catalog_page_url "https://x.com/cat" 3 =
      "https://x.com/cat" ++
        (if containsL "?".data ("https://x.com/cat" : String).data then "&" else "?") ++
        "page=" ++ toString 3 :=
  ⟨by decide, c5_catalog_page_url.2.1 "https://x.com/cat" 3 (by decide)⟩

/-- Claim C6: the size grammar is an anchored full-string case-insensitive
match accepting exactly a literal token of {XS, XXXS, S, M, L, XL, XXL,
XXXL, ONE SIZE, OS, O/S}, a "US"/"EU"-prefixed number (optional space,
optional decimal part with "." or ","), or a bare number with optional
decimal part: on every whitespace-normalized candidate (the form in which
`parse_product_page` feeds fragments to SIZE_RE) the source regex agrees
with that grammar; "XL", "EU 42", "42.5", "42,5" match while "XXXXL" and
"Size: M" do not. -/
theorem c6_size_grammar :
    (∀ s : List Char, SIZE_RE_match (cleanTextL s) = sizeGrammarSpec (cleanTextL s)) ∧
    SIZE_RE_match "XL".data = true ∧
    SIZE_RE_match "EU 42".data = true ∧
    SIZE_RE_match "42.5".data = true ∧
    SIZE_RE_match "42,5".data = true ∧
    SIZE_RE_match "XXXXL".data = false ∧
    SIZE_RE_match "Size: M".data = false := by
  exact ⟨SIZE_RE_match_spec_on_clean, by decide, by decide, by decide, by decide,
    by decide, by decide⟩

/-- Claim C8: a text fragment passes the color-plausibility test iff it
is non-empty after whitespace normalization, contains none of the
blocklisted commercial/noise terms (checked on the lowercased text; the
list blocks the currency, cart/buy, stock, sale/discount and installment
terms and the label words for "size" and "color" in the language of the site),
has length between 2 and 40, and contains a Latin or Cyrillic letter;
"Черный" passes, "1990 ₽" and "В наличии" fail, and a 45-character
sentence fails. -/
theorem c8_looks_like_color :
    (∀ text : List Char, looks_like_color text = claimColorPass text) ∧
    looks_like_color "Черный".data = true ∧
    looks_like_color "1990 ₽".data = false ∧
    looks_like_color "В наличии".data = false ∧
    looks_like_color "The quick brown fox jumps over the lazy dog!!".data = false ∧
    ("The quick brown fox jumps over the lazy dog!!" : String).length = 45 := by
  refine ⟨?_, by decide, by decide, by decide, by decide, by decide⟩
  intro text
  unfold looks_like_color claimColorPass
  cases h1 : (cleanTextL text).isEmpty <;>
    cases h2 : badTerms.any (fun b => containsL b.data (lowerL (cleanTextL text))) <;>
      cases h3 : (decide (2 ≤ (cleanTextL text).length) &&
          decide ((cleanTextL text).length ≤ 40) && (cleanTextL text).any isAlphaLatCyr) <;>
        simp [h1, h2, h3]

/-- Claim C2 counterexample: on page text containing an out-of-stock (or
in-stock) phrase the stock extractor returns the literal strings
"нет в наличии" / "в наличии", not "out_of_stock" / "in_stock" as the
claim states. -/
theorem c2_stock_counterexample :
    stockOfPage "Sold Out" = "нет в наличии".data ∧
    "нет в наличии".data ≠ "out_of_stock".data ∧
    parse_stock_from_text "in stock".data = "в наличии".data ∧
    "в наличии".data ≠ "in_stock".data := by
  exact ⟨by decide, by decide, by decide, by decide⟩

/-- Claim C2 (amended): the stock step lowercases the cleaned full page
text and returns "нет в наличии" iff it contains an out-of-stock phrase
("нет в наличии" or "sold out"); else "в наличии" iff it contains an
in-stock phrase ("в наличии" or "in stock"); else the empty string
(meaning unknown); consequently every stock value lies in
{"нет в наличии", "в наличии", ""}. -/
theorem c2_stock_amended :
    ∀ t : String,
      (stockOfPage t = "нет в наличии".data ∨ stockOfPage t = "в наличии".data ∨
        stockOfPage t = []) ∧
      (stockOfPage t = "нет в наличии".data ↔
        (containsL "нет в наличии".data (lowerL (cleanTextL t.data)) ||
         containsL "sold out".data (lowerL (cleanTextL t.data))) = true) ∧
      (stockOfPage t = "в наличии".data ↔
        (!(containsL "нет в наличии".data (lowerL (cleanTextL t.data)) ||
           containsL "sold out".data (lowerL (cleanTextL t.data))) &&
         (containsL "в наличии".data (lowerL (cleanTextL t.data)) ||
          containsL "in stock".data (lowerL (cleanTextL t.data)))) = true) ∧
      (stockOfPage t = [] ↔
        (!(containsL "нет в наличии".data (lowerL (cleanTextL t.data)) ||
           containsL "sold out".data (lowerL (cleanTextL t.data))) &&
         !(containsL "в наличии".data (lowerL (cleanTextL t.data)) ||
           containsL "in stock".data (lowerL (cleanTextL t.data)))) = true) := by
  intro t
  have hne1 : "нет в наличии".data ≠ "в наличии".data := by decide
  have hne2 : "нет в наличии".data ≠ ([] : List Char) := by decide
  have hne3 : "в наличии".data ≠ ([] : List Char) := by decide
  unfold stockOfPage parse_stock_from_text
  by_cases h1 :
      (containsL "нет в наличии".data (lowerL (cleanTextL t.data)) ||
       containsL "sold out".data (lowerL (cleanTextL t.data))) = true
  · simp [h1, hne1, hne2, Ne.symm hne1]
  · rw [Bool.not_eq_true] at h1
    by_cases h2 :
        (containsL "в наличии".data (lowerL (cleanTextL t.data)) ||
         containsL "in stock".data (lowerL (cleanTextL t.data))) = true
    · simp [h1, h2, hne1, hne3, Ne.symm hne1]
    · rw [Bool.not_eq_true] at h2
      simp [h1, h2, Ne.symm hne2, Ne.symm hne3]

/-- An environment whose catalog has no products on page 1. -/
def envC3a : CatalogEnv := ⟨fun _ => some [], fun _ => none⟩

/-- An environment whose page 1 yields one link and page 2 yields none. -/
def envC3b : CatalogEnv :=
  ⟨fun n => if n = 1 then some ["https://x.com/product/a"] else some [], fun _ => none⟩

/-- Claim C3: the walk terminates — with zero links on page 1 it performs
exactly one page fetch and emits zero rows; with links on page 1 and none
on page 2 it fetches exactly 2 pages and never attempts page 3; and in
every environment at most MAX_PAGES_PER_CATALOG (200) pages are
fetched. -/
theorem c3_termination :
    (∀ env : CatalogEnv, env.page 1 = some [] → walk env = ([Ev.pageFetch 1], [])) ∧
    (∀ (env : CatalogEnv) (L : List String), env.page 1 = some L → L ≠ [] →
      env.page 2 = some [] →
      countEv isPageFetchB (walk env).1 = 2 ∧ Ev.pageFetch 3 ∉ (walk env).1) ∧
    (∀ env : CatalogEnv, countEv isPageFetchB (walk env).1 ≤ MAX_PAGES_PER_CATALOG) := by
  refine ⟨?_, ?_, ?_⟩
  · intro env h
    unfold walk MAX_PAGES_PER_CATALOG
    rw [show (200 : Nat) = 199 + 1 from rfl]
    exact walkFrom_succ_empty env 1 199 h
  · intro env L h1 hL h2
    cases L with
    | nil => exact absurd rfl hL
    | cons l ls =>
      have hw : (walk env).1 =
          Ev.pageFetch 1 ::
            (pageEvs (l :: ls) ++ [Ev.sleepPage] ++ (walkFrom env 2 199).1) := by
        unfold walk MAX_PAGES_PER_CATALOG
        rw [show (200 : Nat) = 199 + 1 from rfl,
          walkFrom_succ_links env 1 199 l ls h1]
      have hw2 : (walkFrom env 2 199).1 = [Ev.pageFetch 2] := by
        rw [show (199 : Nat) = 198 + 1 from rfl,
          walkFrom_succ_empty env 2 198 h2]
      rw [hw, hw2]
      constructor
      · rw [countEv_cons, countEv_append, countEv_append,
          countEv_pageEvs_zero isPageFetchB (fun u => rfl) rfl (l :: ls)]
        rfl
      · intro hmem
        rcases List.mem_cons.mp hmem with heq | hmem
        · simp at heq
        · rcases List.mem_append.mp hmem with hmem | hmem
          · rcases List.mem_append.mp hmem with hmem | hmem
            · rcases mem_pageEvs_shape _ _ hmem with ⟨u, hu⟩ | hu <;> simp at hu
            · simp at hmem
          · simp at hmem
  · intro env
    exact walkFrom_count_pageFetch_le env MAX_PAGES_PER_CATALOG 1

/-- Witness for C3: its clauses applied at concrete environments. -/
theorem c3_termination_witness :
    envC3a.page 1 = some [] ∧ walk envC3a = ([Ev.pageFetch 1], []) ∧
    countEv isPageFetchB (walk envC3b).1 = 2 ∧ Ev.pageFetch 3 ∉ (walk envC3b).1 :=
  ⟨rfl, c3_termination.1 envC3a rfl,
   (c3_termination.2.1 envC3b ["https://x.com/product/a"] rfl (by decide) rfl).1,
   (c3_termination.2.1 envC3b ["https://x.com/product/a"] rfl (by decide) rfl).2⟩

/-- An environment whose every page fetch fails. -/
def envC4 : CatalogEnv := ⟨fun _ => none, fun _ => none⟩

/-- A crawl environment in which every page fetch of every catalog fails. -/
def envOfC4 : String → CatalogEnv := fun _ => envC4

/-- An environment with one link on page 1 and a failing page-2 fetch. -/
def envC4b : CatalogEnv :=
  ⟨fun n => if n = 1 then some ["https://x.com/product/a"] else none, fun _ => none⟩

/-- Claim C4: failures are isolated at two granularities — the crawl over
catalog roots is the concatenation of independent walks; a page-1 fetch
failure ends only that catalog (one page-fetch event, no rows) and the
remaining catalogs are crawled unchanged; a mid-walk page-fetch failure
keeps the rows of the earlier pages of that catalog; a product whose
assembly fails contributes zero rows while the remaining links of the
page still contribute theirs; and every link of a page is still fetched
regardless of product outcomes. -/
theorem c4_failure_isolation :
    (∀ (envOf : String → CatalogEnv) (r : String) (rest : List String),
      crawl envOf (r :: rest) = (walk (envOf r)).2 ++ crawl envOf rest) ∧
    (∀ (envOf : String → CatalogEnv) (r : String) (rest : List String),
      (envOf r).page 1 = none →
      (walk (envOf r)).1 = [Ev.pageFetch 1] ∧
        crawl envOf (r :: rest) = crawl envOf rest) ∧
    (∀ (env : CatalogEnv) (L : List String), env.page 1 = some L → L ≠ [] →
      env.page 2 = none → (walk env).2 = pageRows env L) ∧
    (∀ (env : CatalogEnv) (xs : List String) (u : String) (ys : List String),
      env.prod u = none → pageRows env (xs ++ u :: ys) = pageRows env (xs ++ ys)) ∧
    (∀ (L : List String) (u : String), Ev.prodFetch u ∈ pageEvs L ↔ u ∈ L) := by
  have hfail : ∀ env : CatalogEnv, env.page 1 = none → walk env = ([Ev.pageFetch 1], []) := by
    intro env h
    unfold walk MAX_PAGES_PER_CATALOG
    rw [show (200 : Nat) = 199 + 1 from rfl]
    exact walkFrom_succ_none env 1 199 h
  refine ⟨fun envOf r rest => rfl, ?_, ?_, ?_, fun L u => prodFetch_mem_pageEvs u L⟩
  · intro envOf r rest h
    refine ⟨by rw [hfail _ h], ?_⟩
    show (walk (envOf r)).2 ++ crawl envOf rest = crawl envOf rest
    rw [hfail _ h]
    rfl
  · intro env L h1 hL h2
    cases L with
    | nil => exact absurd rfl hL
    | cons l ls =>
      have hw2 : (walkFrom env 2 199).2 = [] := by
        rw [show (199 : Nat) = 198 + 1 from rfl,
          walkFrom_succ_none env 2 198 h2]
      unfold walk MAX_PAGES_PER_CATALOG
      rw [show (200 : Nat) = 199 + 1 from rfl,
        walkFrom_succ_links env 1 199 l ls h1]
      show pageRows env (l :: ls) ++ (walkFrom env 2 199).2 = pageRows env (l :: ls)
      rw [hw2, List.append_nil]
  · intro env xs u ys h
    induction xs with
    | nil => simp [pageRows, h]
    | cons x xs ih => simp [pageRows, ih]

/-- Witness for C4: its failure clauses applied at concrete
environments. -/
theorem c4_failure_isolation_witness :
    (envOfC4 "a").page 1 = none ∧
    crawl envOfC4 ["a", "b"] = crawl envOfC4 ["b"] ∧
    (walk envC4b).2 = pageRows envC4b ["https://x.com/product/a"] ∧
    pageRows envC4 (["x"] ++ "u" :: ["y"]) = pageRows envC4 (["x"] ++ ["y"]) :=
  ⟨rfl, (c4_failure_isolation.2.1 envOfC4 "a" ["b"] rfl).2,
   c4_failure_isolation.2.2.1 envC4b ["https://x.com/product/a"] rfl (by decide) rfl,
   c4_failure_isolation.2.2.2.1 envC4 ["x"] "u" ["y"] rfl⟩

/-- An environment whose page-1 fetch fails. -/
def envC9fail : CatalogEnv := ⟨fun _ => none, fun _ => none⟩

/-- An environment whose page 1 yields zero links. -/
def envC9empty : CatalogEnv := ⟨fun _ => some [], fun _ => none⟩

/-- Claim C9 counterexample: when the page-1 fetch fails, and likewise
when page 1 yields zero links, a catalog page is fetched but no per-page
delay happens at all (the loop breaks before the sleep), contradicting
the claim that the page delay occurs unconditionally after each page,
including failed or empty pages. -/
theorem c9_counterexample :
    countEv isPageFetchB (walk envC9fail).1 = 1 ∧
    countEv isSleepPageB (walk envC9fail).1 = 0 ∧
    countEv isPageFetchB (walk envC9empty).1 = 1 ∧
    countEv isSleepPageB (walk envC9empty).1 = 0 := by
  have h1 : walk envC9fail = ([Ev.pageFetch 1], []) := by
    unfold walk MAX_PAGES_PER_CATALOG
    rw [show (200 : Nat) = 199 + 1 from rfl]
    exact walkFrom_succ_none envC9fail 1 199 rfl
  have h2 : walk envC9empty = ([Ev.pageFetch 1], []) := by
    unfold walk MAX_PAGES_PER_CATALOG
    rw [show (200 : Nat) = 199 + 1 from rfl]
    exact walkFrom_succ_empty envC9empty 1 199 rfl
  rw [h1, h2]
  exact ⟨rfl, rfl, rfl, rfl⟩

/-- Claim C9 (amended): the per-product delay is unconditional — exactly
one per-request sleep per product-fetch attempt, whether or not assembling
the product succeeded (indeed the event trace of the walk does not depend on
product outcomes at all); the per-page delay occurs exactly after the
successfully fetched pages that yielded at least one link, and is skipped
after a page whose fetch failed or which yielded zero links (either of
which ends the catalog walk). -/
theorem c9_delays_amended :
    (∀ env : CatalogEnv,
      countEv isSleepProdB (walk env).1 = countEv isProdFetchB (walk env).1) ∧
    (∀ (pfun : Nat → Option (List String))
        (prod1 prod2 : String → Option ProductRecord),
      (walk ⟨pfun, prod1⟩).1 = (walk ⟨pfun, prod2⟩).1) ∧
    (∀ env : CatalogEnv,
      countEv isSleepPageB (walk env).1 = countEv (isSuccPageB env) (walk env).1) :=
  ⟨fun env => walkFrom_sleepProd_eq_prodFetch env MAX_PAGES_PER_CATALOG 1,
   fun pfun p1 p2 => walkFrom_events_indep_prod pfun p1 p2 MAX_PAGES_PER_CATALOG 1,
   fun env => walkFrom_sleepPage_eq_succPages env MAX_PAGES_PER_CATALOG 1⟩

/-- An environment whose pages 1 and 2 both list the same product URL and
whose page 3 is empty. -/
def envC1 : CatalogEnv :=
  ⟨fun n => if n ≤ 2 then some ["https://x.com/product/a"] else some [],
   fun _ => none⟩

/-- Claim C1 counterexample: with the same product URL in the Link
Collector output of pages 1 and 2 of one walk, that URL is fetched and
assembled twice during the walk — the code has no per-walk deduplication
set, only per-page deduplication. -/
theorem c1_counterexample :
    countEv (fun e => decide (e = Ev.prodFetch "https://x.com/product/a"))
      (walk envC1).1 = 2 := by
  have hw3 : (walkFrom envC1 3 198).1 = [Ev.pageFetch 3] := by
    rw [show (198 : Nat) = 197 + 1 from rfl,
      walkFrom_succ_empty envC1 3 197 rfl]
  have hw2 : (walkFrom envC1 2 199).1 =
      Ev.pageFetch 2 ::
        (pageEvs ["https://x.com/product/a"] ++ [Ev.sleepPage] ++ [Ev.pageFetch 3]) := by
    rw [show (199 : Nat) = 198 + 1 from rfl,
      walkFrom_succ_links envC1 2 198 "https://x.com/product/a" [] rfl]
    show Ev.pageFetch 2 ::
        (pageEvs ["https://x.com/product/a"] ++ [Ev.sleepPage] ++ (walkFrom envC1 3 198).1) = _
    rw [hw3]
  have hw1 : (walk envC1).1 =
      Ev.pageFetch 1 ::
        (pageEvs ["https://x.com/product/a"] ++ [Ev.sleepPage] ++
          (Ev.pageFetch 2 ::
            (pageEvs ["https://x.com/product/a"] ++ [Ev.sleepPage] ++ [Ev.pageFetch 3]))) := by
    unfold walk MAX_PAGES_PER_CATALOG
    rw [show (200 : Nat) = 199 + 1 from rfl,
      walkFrom_succ_links envC1 1 199 "https://x.com/product/a" [] rfl]
    show Ev.pageFetch 1 ::
        (pageEvs ["https://x.com/product/a"] ++ [Ev.sleepPage] ++ (walkFrom envC1 2 199).1) = _
    rw [hw2]
  rw [hw1]
  rfl

/-- Claim C1 (amended): deduplication of product links is per catalog
page — the Link Collector output for one page never contains a URL
twice (for any URL-join behaviour), the walk fetches each link of a
output of a page once per occurrence, and hence, within one page, at most
once; a URL appearing in the output of several pages of the same walk is
fetched once per such page. -/
theorem c1_dedup_amended :
    (∀ (join : String → String → String) (hrefs : List String) (base : String),
      (extract_product_links_from_catalog join hrefs base).Nodup) ∧
    (∀ (L : List String) (u : String),
      countEv (fun e => decide (e = Ev.prodFetch u)) (pageEvs L) = L.count u) ∧
    (∀ (L : List String) (u : String), L.Nodup →
      countEv (fun e => decide (e = Ev.prodFetch u)) (pageEvs L) ≤ 1) := by
  refine ⟨fun join hrefs base => dedupFirst_nodup _,
    fun L u => pageEvs_count_one_prodFetch u L, ?_⟩
  intro L u hnodup
  rw [pageEvs_count_one_prodFetch]
  exact List.nodup_iff_count_le_one.mp hnodup u

/-- Witness for the amended per-page clause of C1 at a concrete duplicate-free
link list. -/
theorem c1_dedup_amended_witness :
    (["a", "b"] : List String).Nodup ∧
    countEv (fun e => decide (e = Ev.prodFetch "a")) (pageEvs ["a", "b"]) ≤ 1 :=
  ⟨by decide, c1_dedup_amended.2.2 ["a", "b"] "a" (by decide)⟩

/-- Claim C7: every assembled sizes sequence is duplicate-free, and
flattening emits exactly max(1, len(sizes)) rows: the size column of the rows
is exactly the sizes list in order when non-empty (else a single empty
size), and every emitted row copies the other record fields
verbatim. -/
theorem c7_sizes_rows :
    (∀ optionTexts elementTexts : List String,
      (collectSizes optionTexts elementTexts).Nodup) ∧
    (∀ r : ProductRecord, (flatten r).length = max 1 r.sizes.length) ∧
    (∀ r : ProductRecord,
      (flatten r).map OutputRow.size = if r.sizes.isEmpty then [""] else r.sizes) ∧
    (∀ (r : ProductRecord) (row : OutputRow), row ∈ flatten r →
      row.url = r.url ∧ row.name = r.name ∧ row.category = r.category ∧
      row.color = r.color ∧ row.stock = r.stock) := by
  refine ⟨fun o e => dedupFirst_nodup _, ?_, ?_, ?_⟩
  · intro r
    unfold flatten
    cases hs : r.sizes with
    | nil => simp
    | cons a as => simp [Nat.max_def]
  · intro r
    unfold flatten
    cases hs : r.sizes with
    | nil => simp [rowOfSize]
    | cons a as =>
      simp only [List.isEmpty_cons, Bool.false_eq_true, if_false, List.map_map]
      exact size_comp_rowOfSize r (a :: as)
  · intro r row hrow
    unfold flatten at hrow
    cases hs : r.sizes with
    | nil =>
      rw [hs] at hrow
      simp only [List.isEmpty_nil, if_true, List.mem_singleton] at hrow
      subst hrow
      exact ⟨rfl, rfl, rfl, rfl, rfl⟩
    | cons a as =>
      rw [hs] at hrow
      simp only [List.isEmpty_cons, Bool.false_eq_true, if_false] at hrow
      rcases List.mem_map.mp hrow with ⟨sz, _, rfl⟩
      exact ⟨rfl, rfl, rfl, rfl, rfl⟩

/-- A concrete record used to witness the per-row clause of C7. -/
def recC7 : ProductRecord := ⟨"u", "n", "c", "col", ["M"], "s"⟩

/-- Witness for the per-row clause of C7 at a concrete record and row. -/
theorem c7_sizes_rows_witness :
    (⟨"u", "n", "c", "col", "M", "s"⟩ : OutputRow) ∈ flatten recC7 ∧
    ((⟨"u", "n", "c", "col", "M", "s"⟩ : OutputRow).url = recC7.url ∧
     (⟨"u", "n", "c", "col", "M", "s"⟩ : OutputRow).name = recC7.name ∧
     (⟨"u", "n", "c", "col", "M", "s"⟩ : OutputRow).category = recC7.category ∧
     (⟨"u", "n", "c", "col", "M", "s"⟩ : OutputRow).color = recC7.color ∧
     (⟨"u", "n", "c", "col", "M", "s"⟩ : OutputRow).stock = recC7.stock) :=
  ⟨by decide, c7_sizes_rows.2.2.2 recC7 ⟨"u", "n", "c", "col", "M", "s"⟩ (by decide)⟩

/-- Claim C10: size normalization (uppercasing and double-space collapse)
is applied to each matching fragment before deduplication, so every
assembled size token is a fixed point of uppercasing, and the fragments
"m" and "M" contribute a single sizes entry and hence a single output
row. -/
theorem c10_size_normalization :
    (∀ (optionTexts elementTexts : List String) (tok : String),
      tok ∈ collectSizes optionTexts elementTexts → String.mk (upperL tok.data) = tok) ∧
    collectSizes [] ["m", "M"] = ["M"] ∧
    flatten ⟨"u", "n", "c", "col", ["M"], "s"⟩ = [⟨"u", "n", "c", "col", "M", "s"⟩] := by
  refine ⟨?_, by decide, by decide⟩
  intro opts els tok htok
  unfold collectSizes at htok
  have hmem := mem_dedupAux _ _ _ htok
  have hfix : ∀ t : String, String.mk (upperL (sizeNorm t).data) = sizeNorm t := by
    intro t
    exact congrArg String.mk (upperL_replaceDS_upperL t.data)
  rcases List.mem_append.mp hmem with hmem | hmem
  · rcases List.mem_filterMap.mp hmem with ⟨a, _, heq⟩
    split at heq
    · rw [Option.some.injEq] at heq
      rw [← heq]
      exact hfix _
    · exact absurd heq (by simp)
  · rcases List.mem_filterMap.mp hmem with ⟨a, _, heq⟩
    split at heq
    · exact absurd heq (by simp)
    · split at heq
      · rw [Option.some.injEq] at heq
        rw [← heq]
        exact hfix _
      · exact absurd heq (by simp)

/-- Witness for the fixed-point clause of C10 at a concrete token. -/
theorem c10_size_normalization_witness :
    ("M" ∈ collectSizes [] ["m", "M"]) ∧
    String.mk (upperL ("M" : String).data) = "M" :=
  ⟨by decide, c10_size_normalization.1 [] ["m", "M"] "M" (by decide)⟩

end Scraper
